import Mathlib

/-!
Verification development for the onnxruntime build-cache orchestrator
(`subprojects/packagefiles/onnxruntime/meson_ort_build.py`).

The Python source is shallowly embedded: strings are Lean `String`s (with
core operations carried out on their `List Char` data), the process
environment is a function `String → Option String`, machine-word arithmetic
of SHA-256 is `Nat` arithmetic reduced modulo `2^32`, and fallible code
returns `Except`/`Option`.
-/

namespace OrtBuild

/-! ### Python string primitives -/

/-- The ASCII whitespace characters stripped by Python's `str.strip()`. -/
def pyIsSpace (c : Char) : Bool :=
  c = ' ' || c = '\t' || c = '\n' || c = '\x0d' || c = '\x0b' || c = '\x0c'

/-- `str.strip()` on a character list: drop leading and trailing whitespace. -/
def pyStripC (l : List Char) : List Char :=
  ((l.dropWhile pyIsSpace).reverse.dropWhile pyIsSpace).reverse

/-- `str.strip()` on a `String`. -/
def pyStrip (s : String) : String :=
  String.mk (pyStripC s.data)

/-- `str.split(sep)` for a one-character separator, on character lists.
Mirrors Python: splitting the empty string yields `[[]]`, and separators
delimit (possibly empty) segments. -/
def splitOnCh (sep : Char) : List Char → List (List Char)
  | [] => [[]]
  | c :: cs =>
    if c = sep then [] :: splitOnCh sep cs
    else
      match splitOnCh sep cs with
      | [] => [[c]]
      | s :: ss => (c :: s) :: ss

/-- Process environment: a lookup from variable name to value. -/
def Env : Type := String → Option String

/-- `os.environ.get(key, "").strip()`. -/
def envGetStrip (env : Env) (key : String) : String :=
  pyStrip ((env key).getD "")

/-! ### SHA-256 over byte lists (Nat arithmetic mod 2^32) -/

/-- Truncate to a 32-bit word. -/
def w32 (n : Nat) : Nat := n % 4294967296

/-- 32-bit right rotation. -/
def rotr (x n : Nat) : Nat :=
  w32 ((x >>> n) ||| (x <<< (32 - n)))

/-- 32-bit bitwise complement. -/
def wnot (x : Nat) : Nat := 4294967295 - w32 x

def bigSigma0 (x : Nat) : Nat := (rotr x 2) ^^^ (rotr x 13) ^^^ (rotr x 22)
def bigSigma1 (x : Nat) : Nat := (rotr x 6) ^^^ (rotr x 11) ^^^ (rotr x 25)
def smallSigma0 (x : Nat) : Nat := (rotr x 7) ^^^ (rotr x 18) ^^^ (w32 x >>> 3)
def smallSigma1 (x : Nat) : Nat := (rotr x 17) ^^^ (rotr x 19) ^^^ (w32 x >>> 10)

def chFn (x y z : Nat) : Nat := (x &&& y) ^^^ (wnot x &&& z)
def majFn (x y z : Nat) : Nat := (x &&& y) ^^^ (x &&& z) ^^^ (y &&& z)

/-- The 64 SHA-256 round constants. -/
def sha256K : List Nat :=
  [1116352408, 1899447441, 3049323471, 3921009573, 961987163, 1508970993,
   2453635748, 2870763221, 3624381080, 310598401, 607225278, 1426881987,
   1925078388, 2162078206, 2614888103, 3248222580, 3835390401, 4022224774,
   264347078, 604807628, 770255983, 1249150122, 1555081692, 1996064986,
   2554220882, 2821834349, 2952996808, 3210313671, 3336571891, 3584528711,
   113926993, 338241895, 666307205, 773529912, 1294757372, 1396182291,
   1695183700, 1986661051, 2177026350, 2456956037, 2730485921, 2820302411,
   3259730800, 3345764771, 3516065817, 3600352804, 4094571909, 275423344,
   430227734, 506948616, 659060556, 883997877, 958139571, 1322822218,
   1537002063, 1747873779, 1955562222, 2024104815, 2227730452, 2361852424,
   2428436474, 2756734187, 3204031479, 3329325298]

/-- Working state of the compression function: eight 32-bit words. -/
structure Hash8 where
  a : Nat
  b : Nat
  c : Nat
  d : Nat
  e : Nat
  f : Nat
  g : Nat
  h : Nat
deriving Repr, DecidableEq

def sha256Init : Hash8 :=
  ⟨1779033703, 3144134277, 1013904242, 2773480762,
   1359893119, 2600822924, 528734635, 1541459225⟩

/-- One round of the SHA-256 compression function. -/
def sha256Round (st : Hash8) (kw : Nat) : Hash8 :=
  let t1 := w32 (st.h + bigSigma1 st.e + chFn st.e st.f st.g + kw)
  let t2 := w32 (bigSigma0 st.a + majFn st.a st.b st.c)
  ⟨w32 (t1 + t2), st.a, st.b, st.c, w32 (st.d + t1), st.e, st.f, st.g⟩

/-- Extend the 16 block words to the 64-word message schedule. -/
def sha256Schedule (ws : List Nat) : List Nat :=
  (List.range 48).foldl
    (fun acc _ =>
      let n := acc.length
      let nw := w32 (smallSigma1 (acc.getD (n - 2) 0) + acc.getD (n - 7) 0 +
                     smallSigma0 (acc.getD (n - 15) 0) + acc.getD (n - 16) 0)
      acc ++ [nw])
    ws

/-- Split a byte list into chunks of 64. -/
def toBlocks : List Nat → List (List Nat)
  | [] => []
  | c :: cs => (c :: cs).take 64 :: toBlocks ((c :: cs).drop 64)
termination_by l => l.length
decreasing_by
  simp only [List.drop, List.length_drop, List.length_cons]
  omega

/-- Interpret 4 consecutive bytes as one big-endian 32-bit word. -/
def bytesToWords (block : List Nat) : List Nat :=
  (List.range 16).map fun i =>
    block.getD (4 * i) 0 * 16777216 + block.getD (4 * i + 1) 0 * 65536 +
    block.getD (4 * i + 2) 0 * 256 + block.getD (4 * i + 3) 0

/-- SHA-256 padding: append `0x80`, zero bytes to 56 mod 64, then the
bit length as an 8-byte big-endian integer. -/
def sha256Pad (msg : List Nat) : List Nat :=
  let len := msg.length
  let k := (64 + 56 - (len + 1) % 64) % 64
  let bitLen := len * 8
  msg ++ [0x80] ++ List.replicate k 0 ++
    [w32 (bitLen >>> 56) % 256, (bitLen >>> 48) % 256, (bitLen >>> 40) % 256,
     (bitLen >>> 32) % 256, (bitLen >>> 24) % 256, (bitLen >>> 16) % 256,
     (bitLen >>> 8) % 256, bitLen % 256]

/-- Process one 64-byte block. -/
def sha256Block (st : Hash8) (block : List Nat) : Hash8 :=
  let ws := sha256Schedule (bytesToWords block)
  let kws := List.zipWith (fun k w => w32 (k + w)) sha256K ws
  let e := kws.foldl sha256Round st
  ⟨w32 (st.a + e.a), w32 (st.b + e.b), w32 (st.c + e.c), w32 (st.d + e.d),
   w32 (st.e + e.e), w32 (st.f + e.f), w32 (st.g + e.g), w32 (st.h + e.h)⟩

/-- Big-endian bytes of a 32-bit word. -/
def wordBytes (x : Nat) : List Nat :=
  [w32 x >>> 24, (w32 x >>> 16) % 256, (w32 x >>> 8) % 256, w32 x % 256]

/-- SHA-256 digest of a byte list: 32 bytes. -/
def sha256 (msg : List Nat) : List Nat :=
  let st := (toBlocks (sha256Pad msg)).foldl sha256Block sha256Init
  wordBytes st.a ++ wordBytes st.b ++ wordBytes st.c ++ wordBytes st.d ++
  wordBytes st.e ++ wordBytes st.f ++ wordBytes st.g ++ wordBytes st.h

/-- Lower-case hexadecimal digit characters. -/
def hexDigits : List Char :=
  "0123456789abcdef".data

def hexChar (n : Nat) : Char := hexDigits.getD n '0'

/-- Hexadecimal rendering of a byte list, two digits per byte. -/
def bytesToHexChars : List Nat → List Char
  | [] => []
  | b :: bs => hexChar (b / 16 % 16) :: hexChar (b % 16) :: bytesToHexChars bs

/-- UTF-8 encoding of one character. -/
def utf8Char (c : Char) : List Nat :=
  let n := c.toNat
  if n < 0x80 then [n]
  else if n < 0x800 then [0xc0 ||| (n >>> 6), 0x80 ||| (n &&& 0x3f)]
  else if n < 0x10000 then
    [0xe0 ||| (n >>> 12), 0x80 ||| ((n >>> 6) &&& 0x3f), 0x80 ||| (n &&& 0x3f)]
  else
    [0xf0 ||| (n >>> 18), 0x80 ||| ((n >>> 12) &&& 0x3f),
     0x80 ||| ((n >>> 6) &&& 0x3f), 0x80 ||| (n &&& 0x3f)]

/-- UTF-8 encoding of a string, as Python's `str.encode("utf-8")`. -/
def utf8Encode (s : String) : List Nat :=
  s.data.flatMap utf8Char

/-- `hashlib.sha256(s.encode("utf-8")).hexdigest()` as a character list. -/
def sha256HexOfString (s : String) : List Char :=
  bytesToHexChars (sha256 (utf8Encode s))

/-! ### Signature computer (`compute_toolchain_signature`) -/

/-- The canonical ordered field list hashed by `compute_toolchain_signature`
(source lines 236-246): version, stripped `CC`/`CXX`/`CFLAGS`/`CXXFLAGS`
environment values, the three toggle strings, and the stripped extras. -/
def signatureParts (env : Env) (ort_version tests acl xnnpack extra : String) :
    List String :=
  [ort_version,
   envGetStrip env "CC",
   envGetStrip env "CXX",
   envGetStrip env "CFLAGS",
   envGetStrip env "CXXFLAGS",
   tests, acl, xnnpack,
   pyStrip extra]

/-- `sep.join(parts)`: the parts joined with a separator between consecutive
entries. -/
def joinSep (sep : List Char) : List (List Char) → List Char
  | [] => []
  | [x] => x
  | x :: y :: rest => x ++ sep ++ joinSep sep (y :: rest)

/-- The pipe-joined string fed to SHA-256 (`"|".join(parts)`). -/
def signatureInput (env : Env) (ort_version tests acl xnnpack extra : String) :
    String :=
  String.mk (joinSep ['|']
    ((signatureParts env ort_version tests acl xnnpack extra).map String.data))

/-- `compute_toolchain_signature` (source lines 225-248): first 12 characters
of the SHA-256 hex digest of the pipe-joined field list. -/
def compute_toolchain_signature (env : Env)
    (ort_version tests acl xnnpack extra : String) : String :=
  String.mk ((sha256HexOfString
    (signatureInput env ort_version tests acl xnnpack extra)).take 12)

/-! ### `parse_extra_defines` (source lines 131-140) -/

/-- The stripped, non-blank semicolon-separated segments of the raw
extra-definitions string. -/
def extraSegments (extra : String) : List String :=
  ((splitOnCh ';' (pyStripC extra.data)).map
    (fun l => String.mk (pyStripC l))).filter (fun p => p ≠ "")

/-- The error message raised for a malformed entry. -/
def badEntryMsg (p : String) : String :=
  "Bad ort_cmake_extra entry (need KEY=VALUE): " ++ p

/-- Python's `c in s` membership test on a string. -/
def strContains (s : String) (c : Char) : Bool :=
  s.data.contains c

/-- `parse_extra_defines`: strip the raw string; empty means no entries;
otherwise split on `;`, strip each part, drop blanks, and fail on the first
part that contains no `=`. -/
def parse_extra_defines (extra : String) : Except String (List String) :=
  let e := pyStrip extra
  if e = "" then .ok []
  else
    let parts := extraSegments extra
    match parts.find? (fun p => !(strContains p '=')) with
    | some p => .error (badEntryMsg p)
    | none => .ok parts

/-! ### `natural_version_key` (source lines 143-145) -/

/-- Collect the maximal runs of decimal digits in a character list, each as
a natural number — `re.findall(r"[0-9]+", name)` followed by `int`. -/
def digitRunsAux : List Char → Option Nat → List Nat
  | [], none => []
  | [], some n => [n]
  | c :: cs, acc =>
    if c.isDigit then
      digitRunsAux cs (some ((acc.getD 0) * 10 + (c.toNat - 48)))
    else
      match acc with
      | some n => n :: digitRunsAux cs none
      | none => digitRunsAux cs none

/-- `natural_version_key`: the tuple of numeric runs in a filename. -/
def natural_version_key (name : String) : List Nat :=
  digitRunsAux name.data none

/-! ### Output normalizer (`ensure_soname_symlink`, source lines 174-215)

A directory is modelled by its listing: entry names with their kind
(regular file, directory, or symlink).  `pathlib` checks follow from the
kind: `is_file()` holds for regular files, `is_symlink()` for symlinks. -/

inductive EntKind where
  | file
  | dirE
  | symlinkE
deriving DecidableEq, Repr

/-- A directory listing: entry names paired with their kinds. -/
abbrev DirListing : Type := List (String × EntKind)

/-- The canonical unversioned library name (`want`). -/
def wantName (darwin : Bool) : String :=
  if darwin then "libonnxruntime.dylib" else "libonnxruntime.so"

/-- Whether a file name matches the platform shared-library glob patterns:
`libonnxruntime*.dylib` on darwin, `libonnxruntime.so.*` or
`libonnxruntime.so` elsewhere (`*` matches any, possibly empty, run). -/
def matchesLibPattern (darwin : Bool) (name : String) : Bool :=
  if darwin then
    "libonnxruntime".data.isPrefixOf name.data &&
    ".dylib".data.isSuffixOf name.data &&
    decide ("libonnxruntime".length + ".dylib".length ≤ name.length)
  else
    "libonnxruntime.so.".data.isPrefixOf name.data ||
    decide (name = "libonnxruntime.so")

/-- `p.suffix == ".a"`, on the names the glob patterns produce. -/
def isStaticArchive (name : String) : Bool :=
  ".a".data.isSuffixOf name.data

/-- The candidate files considered by `ensure_soname_symlink`: entries
matching a platform pattern, other than the canonical name, not static
archives, and either regular files or symlinks. -/
def sonameCandidates (darwin : Bool) (listing : DirListing) : List String :=
  (listing.filter (fun e =>
    matchesLibPattern darwin e.1 && !(decide (e.1 = wantName darwin)) &&
    !(isStaticArchive e.1) &&
    (decide (e.2 = EntKind.file) || decide (e.2 = EntKind.symlinkE)))).map
    (fun e => e.1)

/-- Python tuple comparison (strict) on integer tuples. -/
def natListLt : List Nat → List Nat → Bool
  | [], [] => false
  | [], _ :: _ => true
  | _ :: _, [] => false
  | x :: xs, y :: ys => decide (x < y) || (decide (x = y) && natListLt xs ys)

/-- Python string comparison (non-strict) by code points. -/
def charListLe : List Char → List Char → Bool
  | [], _ => true
  | _ :: _, [] => false
  | c :: cs, d :: ds =>
    decide (c.toNat < d.toNat) || (decide (c = d) && charListLe cs ds)

/-- The sort key of `ensure_soname_symlink`: compare
`(natural_version_key(p), p.name)` tuples, numeric key first, filename as
tie-break. -/
def candLe (a b : String) : Bool :=
  natListLt (natural_version_key a) (natural_version_key b) ||
  (decide (natural_version_key a = natural_version_key b) &&
    charListLe a.data b.data)

/-- `candLe` as a relation, for `List.insertionSort`. -/
def candR (a b : String) : Prop := candLe a b = true

instance : DecidableRel candR :=
  fun a b => inferInstanceAs (Decidable (candLe a b = true))

/-- Plain string order as a relation, for `sorted()` in the diagnostic. -/
def strR (a b : String) : Prop := charListLe a.data b.data = true

instance : DecidableRel strR :=
  fun a b => inferInstanceAs (Decidable (charListLe a.data b.data = true))

/-- `sorted(x.name for x in lib_dir.glob("*"))`. -/
def dirNamesSorted (listing : DirListing) : List String :=
  List.insertionSort strR (listing.map (fun e => e.1))

/-- The `FileNotFoundError` message listing the directory contents. -/
def noCandidatesMsg (darwin : Bool) (libDir : String) (listing : DirListing) :
    String :=
  let ls := String.mk (joinSep "\n  ".data ((dirNamesSorted listing).map String.data))
  "Shared build requested but no candidates found for " ++ wantName darwin ++
    " in " ++ libDir ++ "\nDirectory contents:\n  " ++
    (if ls = "" then "(empty)" else ls)

/-- `ensure_soname_symlink`: no-op (`.ok none`) when the canonical name is
already present (as any kind of entry, `exists()`-or-`is_symlink()`);
otherwise raise when there is no candidate; otherwise create the canonical
entry for the candidate greatest under `(natural_version_key, name)`
(`.ok (some chosen)` — symlink with copy fallback in the source). -/
def ensure_soname_symlink (darwin : Bool) (libDir : String)
    (listing : DirListing) : Except String (Option String) :=
  if (listing.any (fun e => decide (e.1 = wantName darwin))) then .ok none
  else
    let cands := sonameCandidates darwin listing
    if cands = [] then .error (noCandidatesMsg darwin libDir listing)
    else .ok ((List.insertionSort candR cands).getLast?)

/-- The spec's demonstration listing, with the real library base name. -/
def demoListing : DirListing :=
  [("libonnxruntime.so.1.2.0", EntKind.file),
   ("libonnxruntime.so.1.23.2", EntKind.file),
   ("libonnxruntime.so.1.9.0", EntKind.file)]

/-! ### Filesystem model and `ensure_symlink` (source lines 148-171)

A filesystem is a finite map from absolute paths (component lists) to
nodes; symlink targets are absolute (as in `main`, which always passes
absolute persistent directories).  `Path.resolve()` follows the chain of
symlinks at the path itself, with fuel `|fs| + 1`: an acyclic chain visits
distinct symlink entries, so it terminates within the fuel, and a cyclic
chain (where CPython raises `OSError`/`RuntimeError`) exhausts it. -/

abbrev FPath : Type := List String

inductive FNode where
  | file
  | dir
  | symlink (target : FPath)
deriving DecidableEq, Repr

abbrev FS : Type := List (FPath × FNode)

/-- First entry at a path, if any. -/
def lookupFS : FS → FPath → Option FNode
  | [], _ => none
  | e :: es, p => if e.1 = p then some e.2 else lookupFS es p

/-- `Path.parent` (for the root, the root itself). -/
def parentP (p : FPath) : FPath := p.dropLast

/-- The nonempty prefixes of a path, shortest first. -/
def ancestors (p : FPath) : List FPath :=
  (List.range p.length).map (fun i => p.take (i + 1))

/-- One step of `mkdir(parents=True, exist_ok=True)`: create a directory
entry unless something already sits at the path. -/
def mkStep (acc : FS) (r : FPath) : FS :=
  if (lookupFS acc r).isSome then acc else (r, FNode.dir) :: acc

/-- `p.mkdir(parents=True, exist_ok=True)`. -/
def mkdirParents (fs : FS) (p : FPath) : FS :=
  (ancestors p).foldl mkStep fs

/-- `Path.unlink()`: drop the entry at the path. -/
def unlinkFS (fs : FS) (p : FPath) : FS :=
  fs.filter (fun e => !(decide (e.1 = p)))

/-- `shutil.rmtree`: drop the path and everything below it. -/
def rmtreeFS (fs : FS) (p : FPath) : FS :=
  fs.filter (fun e => !(p.isPrefixOf e.1))

/-- Follow the symlink chain at a path for at most the given fuel. -/
def resolveSteps (fs : FS) : Nat → FPath → Option FPath
  | 0, p =>
    match lookupFS fs p with
    | some (FNode.symlink _) => none
    | _ => some p
  | n + 1, p =>
    match lookupFS fs p with
    | some (FNode.symlink t) => resolveSteps fs n t
    | _ => some p

/-- `Path.resolve()` (strict=False): `none` models the `OSError` raised on
symlink loops. -/
def pyResolve (fs : FS) (p : FPath) : Option FPath :=
  resolveSteps fs (fs.length + 1) p

/-- `ensure_symlink(link_path, target_dir)`: make the parents, then
  * an existing symlink resolving to the target's resolution: no-op;
  * an existing symlink resolving elsewhere (or whose resolution raises,
    the caught-`OSError` path): unlink and relink;
  * an existing directory: `rmtree` and relink; a file: unlink and relink;
  * nothing: just link.
`none` models the uncaught exception when the current link resolves but
`target_dir.resolve()` raises. -/
def ensure_symlink (fs : FS) (link target : FPath) : Option FS :=
  let fs1 := mkdirParents fs (parentP link)
  match lookupFS fs1 link with
  | some (FNode.symlink curT) =>
    match resolveSteps fs1 (fs1.length + 1) curT with
    | some c =>
      match resolveSteps fs1 (fs1.length + 1) target with
      | some t2 =>
        if c = t2 then some fs1
        else some ((link, FNode.symlink target) :: unlinkFS fs1 link)
      | none => none
    | none => some ((link, FNode.symlink target) :: unlinkFS fs1 link)
  | some FNode.dir => some ((link, FNode.symlink target) :: rmtreeFS fs1 link)
  | some FNode.file => some ((link, FNode.symlink target) :: unlinkFS fs1 link)
  | none => some ((link, FNode.symlink target) :: fs1)

/-- A tiny filesystem for the C4 witness: one persistent directory. -/
def demoFS : FS := [(["data"], FNode.dir)]

/-- `demoFS` after `ensure_symlink` of `proj/build` onto `data`. -/
def demoFS1 : FS :=
  [(["proj", "build"], FNode.symlink ["data"]),
   (["proj"], FNode.dir),
   (["data"], FNode.dir)]

/-! ### Toolchain prober (`detect_runtime_lib_dir`, source lines 67-128)

The compiler and filesystem are oracles: `printFileName lib` is the
(stripped) output of `cxx -print-file-name=<lib>`, `searchDirsOut` the
(stripped) output of `cxx -print-search-dirs`, `pathExists` is
`Path.exists()` and `resolveP` is `Path.resolve()` on path strings. -/

structure CxxEnv where
  printFileName : String → String
  searchDirsOut : String
  pathExists : String → Bool
  resolveP : String → String

/-- POSIX `Path.is_absolute()`. -/
def isAbsolutePath (p : String) : Bool :=
  "/".data.isPrefixOf p.data

/-- `Path(p).parent` as a string (POSIX, unnormalized). -/
def dirnameP (p : String) : String :=
  match p.data.reverse.dropWhile (fun c => !(decide (c = '/'))) with
  | [] => "."
  | _ :: rest => if rest = [] then "/" else String.mk rest.reverse

/-- `Path(p).name`: the final component. -/
def basenameP (p : String) : String :=
  String.mk (p.data.reverse.takeWhile (fun c => !(decide (c = '/')))).reverse

/-- `d / name` for a relative name. -/
def joinPath (d name : String) : String := d ++ "/" ++ name

/-- `line.split("=", 1)[1]` when `=` occurs, else the empty string. -/
def afterFirstEq : List Char → List Char
  | [] => []
  | c :: cs => if c = '=' then cs else afterFirstEq cs

/-- `_candidate_dirs_from_search_dirs`: the existing directories named on
`libraries:` lines of the search-dirs diagnostic, in order. -/
def candidate_dirs_from_search_dirs (E : CxxEnv) : List String :=
  if E.searchDirsOut = "" then []
  else
    (splitOnCh '\n' E.searchDirsOut.data).flatMap (fun line =>
      if "libraries:".data.isPrefixOf line then
        (((splitOnCh ':' (afterFirstEq line)).map
          (fun part => String.mk (pyStripC part))).filter
            (fun part => part ≠ "" && E.pathExists part))
      else [])

/-- `_candidate_dirs_from_compiler_prefix` (the source's name ends in a
word this file avoids): `lib`, `lib/c++`, `lib/unwind` under the compiler
binary's grandparent, when the binary looks like clang or gcc. -/
def candidate_dirs_from_compiler_root (E : CxxEnv) (cxx_bin : String) :
    List String :=
  let cxx_path := E.resolveP cxx_bin
  let nm := basenameP cxx_path
  if "clang".data.isPrefixOf nm.data || decide (nm = "g++") ||
      decide (nm = "gcc") then
    let pfx := dirnameP (dirnameP cxx_path)
    ([joinPath pfx "lib", joinPath pfx "lib/c++",
      joinPath pfx "lib/unwind"]).filter E.pathExists
  else []

/-- Step 1 of `detect_runtime_lib_dir`: the parent of the first candidate
name the compiler resolves to an absolute existing path. -/
def printFileHit (E : CxxEnv) : List String → Option String
  | [] => none
  | lib :: rest =>
    let cand := E.printFileName lib
    if cand ≠ "" && isAbsolutePath cand && E.pathExists cand then
      some (dirnameP cand)
    else printFileHit E rest

/-- Steps 2-3: scan candidate directories (deduplicated by resolved path),
returning the first that contains some candidate name. -/
def scanDirs (E : CxxEnv) (libnames : List String) :
    List String → List String → Option String
  | [], _ => none
  | d :: ds, seen =>
    let dr := E.resolveP d
    if dr ∈ seen then scanDirs E libnames ds seen
    else if libnames.any (fun lib => E.pathExists (joinPath d lib)) then some d
    else scanDirs E libnames ds (dr :: seen)

/-- `detect_runtime_lib_dir`. -/
def detect_runtime_lib_dir (E : CxxEnv) (cxx_bin : String)
    (libnames : List String) : Option String :=
  if cxx_bin = "" then none
  else
    match printFileHit E libnames with
    | some d => some d
    | none =>
      scanDirs E libnames
        (candidate_dirs_from_search_dirs E ++
          candidate_dirs_from_compiler_root E cxx_bin) []

/-- An oracle on which every probing step fails. -/
def demoCxxEnv : CxxEnv :=
  { printFileName := fun _ => ""
    searchDirsOut := ""
    pathExists := fun _ => false
    resolveP := id }

/-! ### `main` as an event trace (source lines 340-497)

Only the observable behaviour the claims quantify over is modelled: the
three external cmake invocations (configure, build, install), the stamp
touch, and the raised errors, as a function of the argument/extra string,
the `skip-if-built` flag, and the persistent install `lib` directory state
(existence flag plus listing).  The omitted steps (signature computation,
cache-directory creation, the two `ensure_symlink` calls, flag assembly
and the darwin-only compiler probing) spawn none of the three cmake
processes and do not modify that directory; on the skip path — the path
the claims about this model exercise — the directory state is also
unchanged by any external process. -/

inductive Ev where
  | cfgRun
  | buildRun
  | installRun
  | stampTouch
deriving DecidableEq, Repr

/-- The `is_built` glob pattern: `libonnxruntime*.dylib` on darwin,
`libonnxruntime.so*` elsewhere (note: broader than the normalizer's
`libonnxruntime.so.*`). -/
def builtPattern (darwin : Bool) (name : String) : Bool :=
  if darwin then matchesLibPattern true name
  else "libonnxruntime.so".data.isPrefixOf name.data

/-- `is_built`: the install lib dir exists and some entry matches. -/
def is_built (darwin : Bool) (libDirExists : Bool) (listing : DirListing) :
    Bool :=
  libDirExists && listing.any (fun e => builtPattern darwin e.1)

/-- The trace of `main` after argument parsing: events spawned and the
error raised, if any. -/
def mainTrace (darwin cmakeListsExists libDirExists : Bool)
    (listing : DirListing) (libDirPath extra : String) (skipIfBuilt : Bool) :
    List Ev × Option String :=
  if ¬cmakeListsExists then ([], some "Expected CMakeLists.txt")
  else
    match parse_extra_defines extra with
    | .error e => ([], some e)
    | .ok _ =>
      let spawns :=
        if skipIfBuilt && is_built darwin libDirExists listing then []
        else [Ev.cfgRun, Ev.buildRun, Ev.installRun]
      if ¬libDirExists then
        (spawns, some ("Install libdir not found: " ++ libDirPath))
      else
        match ensure_soname_symlink darwin libDirPath listing with
        | .error e => (spawns, some e)
        | .ok _ => (spawns ++ [Ev.stampTouch], none)

/-- The C8 counterexample listing: a file matching `is_built`'s pattern but
none of the normalizer's. -/
def c8Listing : DirListing := [("libonnxruntime.sox", EntKind.file)]

/-- A listing on which the skip fast path completes with a stamp. -/
def c8GoodListing : DirListing := [("libonnxruntime.so.1.2.3", EntKind.file)]

/-! ### Concrete environments used in counterexamples and witnesses -/

def envLD1 : Env := fun k => if k = "LDFLAGS" then some "-L/opt/a" else none

def envLD2 : Env := fun k => if k = "LDFLAGS" then some "-L/opt/b" else none

def envCR1 : Env := fun k => if k = "ORT_CACHE_ROOT" then some "/cache/a" else none

def envCR2 : Env := fun k => if k = "ORT_CACHE_ROOT" then some "/cache/b" else none

def envCF1 : Env := fun k => if k = "CFLAGS" then some "-O2" else none

def envCF2 : Env := fun k => if k = "CFLAGS" then some " -O2 " else none

def envS1 : Env := fun k => if k = "CFLAGS" then some "-O2" else none

def envS2 : Env := fun k => if k = "CFLAGS" then some "-O3" else none

/-! ## Supporting lemmas -/

theorem length_bytesToHexChars (l : List Nat) :
    (bytesToHexChars l).length = 2 * l.length := by
  induction l with
  | nil => rfl
  | cons b bs ih =>
    simp only [bytesToHexChars, List.length_cons, ih]
    omega

theorem sha256_length (msg : List Nat) : (sha256 msg).length = 32 := by
  simp [sha256, wordBytes]

theorem sha256HexOfString_length (s : String) :
    (sha256HexOfString s).length = 64 := by
  simp [sha256HexOfString, length_bytesToHexChars, sha256_length]

theorem hexChar_mem (n : Nat) : hexChar n ∈ hexDigits := by
  rcases Nat.lt_or_ge n 16 with h | h
  · interval_cases n <;> decide
  · unfold hexChar
    rw [List.getD_eq_default]
    · decide
    · have hlen : hexDigits.length = 16 := by decide
      omega

theorem mem_bytesToHexChars {c : Char} :
    ∀ {l : List Nat}, c ∈ bytesToHexChars l → c ∈ hexDigits := by
  intro l
  induction l with
  | nil => intro h; simp [bytesToHexChars] at h
  | cons b bs ih =>
    intro h
    simp only [bytesToHexChars, List.mem_cons] at h
    rcases h with h | h | h
    · exact h ▸ hexChar_mem _
    · exact h ▸ hexChar_mem _
    · exact ih h

theorem joinSep_cons_of_ne_nil (sep x : List Char) {l : List (List Char)}
    (h : l ≠ []) : joinSep sep (x :: l) = x ++ sep ++ joinSep sep l := by
  cases l with
  | nil => exact absurd rfl h
  | cons y ys => rfl

theorem joinSep_ne_of_single_diff (sep : List Char) (pre : List (List Char))
    {a b : List Char} (post : List (List Char)) (hne : a ≠ b) :
    joinSep sep (pre ++ a :: post) ≠ joinSep sep (pre ++ b :: post) := by
  induction pre with
  | nil =>
    simp only [List.nil_append]
    cases post with
    | nil => simpa [joinSep] using hne
    | cons p ps =>
      intro h
      rw [joinSep_cons_of_ne_nil sep a (by simp),
          joinSep_cons_of_ne_nil sep b (by simp)] at h
      exact hne (List.append_cancel_right (List.append_cancel_right h))
  | cons q qs ih =>
    intro h
    rw [List.cons_append, List.cons_append,
        joinSep_cons_of_ne_nil sep q (by simp),
        joinSep_cons_of_ne_nil sep q (by simp)] at h
    exact ih (List.append_cancel_left h)

theorem char_toNat_inj {a b : Char} (h : a.toNat = b.toNat) : a = b := by
  have h2 := congrArg Char.ofNat h
  rwa [Char.ofNat_toNat, Char.ofNat_toNat] at h2

theorem natListLt_trans : ∀ {a b c : List Nat},
    natListLt a b = true → natListLt b c = true → natListLt a c = true := by
  intro a
  induction a with
  | nil =>
    intro b c hab hbc
    cases b with
    | nil => simp [natListLt] at hab
    | cons y ys =>
      cases c with
      | nil => simp [natListLt] at hbc
      | cons z zs => simp [natListLt]
  | cons x xs ih =>
    intro b c hab hbc
    cases b with
    | nil => simp [natListLt] at hab
    | cons y ys =>
      cases c with
      | nil => simp [natListLt] at hbc
      | cons z zs =>
        simp only [natListLt, Bool.or_eq_true, Bool.and_eq_true,
          decide_eq_true_eq] at hab hbc ⊢
        rcases hab with h1 | ⟨h1, h1r⟩ <;> rcases hbc with h2 | ⟨h2, h2r⟩
        · exact Or.inl (by omega)
        · exact Or.inl (by omega)
        · exact Or.inl (by omega)
        · exact Or.inr ⟨by omega, ih h1r h2r⟩

theorem natListLt_trichotomy :
    ∀ (a b : List Nat), natListLt a b = true ∨ natListLt b a = true ∨ a = b := by
  intro a
  induction a with
  | nil =>
    intro b
    cases b with
    | nil => right; right; rfl
    | cons y ys => left; simp [natListLt]
  | cons x xs ih =>
    intro b
    cases b with
    | nil => right; left; simp [natListLt]
    | cons y ys =>
      rcases Nat.lt_trichotomy x y with h | h | h
      · left; simp [natListLt, h]
      · rcases ih ys with h2 | h2 | h2
        · left; simp [natListLt, h, h2]
        · right; left; simp [natListLt, h.symm, h2]
        · right; right; rw [h, h2]
      · right; left; simp [natListLt, h]

theorem charListLe_refl : ∀ (l : List Char), charListLe l l = true := by
  intro l
  induction l with
  | nil => rfl
  | cons c cs ih => simp [charListLe, ih]

theorem charListLe_trans : ∀ {a b c : List Char},
    charListLe a b = true → charListLe b c = true → charListLe a c = true := by
  intro a
  induction a with
  | nil => intro b c _ _; rfl
  | cons x xs ih =>
    intro b c hab hbc
    cases b with
    | nil => simp [charListLe] at hab
    | cons y ys =>
      cases c with
      | nil => simp [charListLe] at hbc
      | cons z zs =>
        simp only [charListLe, Bool.or_eq_true, Bool.and_eq_true,
          decide_eq_true_eq] at hab hbc ⊢
        rcases hab with h1 | ⟨h1, h1r⟩ <;> rcases hbc with h2 | ⟨h2, h2r⟩
        · exact Or.inl (Nat.lt_trans h1 h2)
        · exact Or.inl (by rw [← h2]; exact h1)
        · exact Or.inl (by rw [h1]; exact h2)
        · exact Or.inr ⟨h1.trans h2, ih h1r h2r⟩

theorem charListLe_total :
    ∀ (a b : List Char), charListLe a b = true ∨ charListLe b a = true := by
  intro a
  induction a with
  | nil => intro b; left; rfl
  | cons x xs ih =>
    intro b
    cases b with
    | nil => right; rfl
    | cons y ys =>
      rcases Nat.lt_trichotomy x.toNat y.toNat with h | h | h
      · left; simp [charListLe, h]
      · have hxy : x = y := char_toNat_inj h
        rcases ih ys with h2 | h2
        · left; simp [charListLe, hxy, h2]
        · right; simp [charListLe, hxy.symm, h2]
      · right; simp [charListLe, h]

theorem candLe_trans : ∀ {a b c : String},
    candLe a b = true → candLe b c = true → candLe a c = true := by
  intro a b c hab hbc
  simp only [candLe, Bool.or_eq_true, Bool.and_eq_true, decide_eq_true_eq]
    at hab hbc ⊢
  rcases hab with h1 | ⟨h1, h1r⟩ <;> rcases hbc with h2 | ⟨h2, h2r⟩
  · exact Or.inl (natListLt_trans h1 h2)
  · exact Or.inl (by rw [← h2]; exact h1)
  · exact Or.inl (by rw [h1]; exact h2)
  · exact Or.inr ⟨h1.trans h2, charListLe_trans h1r h2r⟩

theorem candLe_total :
    ∀ (a b : String), candLe a b = true ∨ candLe b a = true := by
  intro a b
  rcases natListLt_trichotomy (natural_version_key a) (natural_version_key b)
    with h | h | h
  · left; simp [candLe, h]
  · right; simp [candLe, h]
  · rcases charListLe_total a.data b.data with h2 | h2
    · left; simp [candLe, h, h2]
    · right; simp [candLe, h.symm, h2]

theorem candLe_refl (a : String) : candLe a a = true := by
  simp [candLe, charListLe_refl]

theorem sorted_getLast?_max {α : Type} {r : α → α → Prop} :
    ∀ {l : List α} {x m : α}, l.Sorted r → x ∈ l → l.getLast? = some m →
      x = m ∨ r x m := by
  intro l
  induction l with
  | nil => intro x m _ hx _; simp at hx
  | cons a t ih =>
    intro x m hs hx hl
    cases t with
    | nil =>
      simp only [List.mem_singleton] at hx
      simp only [List.getLast?_singleton, Option.some.injEq] at hl
      exact Or.inl (hx.trans hl)
    | cons b tt =>
      rw [List.getLast?_cons_cons] at hl
      rcases List.mem_cons.mp hx with rfl | hx2
      · have hm : m ∈ b :: tt := List.mem_of_mem_getLast? (by rw [hl]; rfl)
        exact Or.inr ((List.sorted_cons.mp hs).1 m hm)
      · exact ih (List.sorted_cons.mp hs).2 hx2 hl

theorem mem_pyStripC {c : Char} {l : List Char} (h : c ∈ pyStripC l) :
    c ∈ l := by
  unfold pyStripC at h
  rw [List.mem_reverse] at h
  have h1 : c ∈ (l.dropWhile pyIsSpace).reverse :=
    (List.dropWhile_sublist _).subset h
  rw [List.mem_reverse] at h1
  exact (List.dropWhile_sublist _).subset h1

theorem pyStripC_eq_nil_of_all_space {l : List Char}
    (h : ∀ c ∈ l, pyIsSpace c = true) : pyStripC l = [] := by
  unfold pyStripC
  rw [List.dropWhile_eq_nil_iff.mpr h]
  rfl

theorem splitOnCh_chars {sep : Char} :
    ∀ {l seg : List Char}, seg ∈ splitOnCh sep l →
      ∀ {c : Char}, c ∈ seg → c ∈ l ∧ c ≠ sep := by
  intro l
  induction l with
  | nil =>
    intro seg hseg c hc
    simp only [splitOnCh, List.mem_singleton] at hseg
    subst hseg
    simp at hc
  | cons a as ih =>
    intro seg hseg c hc
    by_cases ha : a = sep
    · rw [splitOnCh, if_pos ha] at hseg
      rcases List.mem_cons.mp hseg with rfl | h2
      · simp at hc
      · have h3 := ih h2 hc
        exact ⟨List.mem_cons_of_mem _ h3.1, h3.2⟩
    · rw [splitOnCh, if_neg ha] at hseg
      cases e : splitOnCh sep as with
      | nil =>
        rw [e] at hseg
        simp only [List.mem_singleton] at hseg
        subst hseg
        simp only [List.mem_singleton] at hc
        subst hc
        exact ⟨List.mem_cons_self _ _, ha⟩
      | cons s ss =>
        rw [e] at hseg
        rcases List.mem_cons.mp hseg with rfl | h2
        · rcases List.mem_cons.mp hc with rfl | h3
          · exact ⟨List.mem_cons_self _ _, ha⟩
          · have hs : s ∈ splitOnCh sep as := by
              rw [e]; exact List.mem_cons_self _ _
            have h4 := ih hs h3
            exact ⟨List.mem_cons_of_mem _ h4.1, h4.2⟩
        · have hs : seg ∈ splitOnCh sep as := by
            rw [e]; exact List.mem_cons_of_mem _ h2
          have h4 := ih hs hc
          exact ⟨List.mem_cons_of_mem _ h4.1, h4.2⟩

theorem lookupFS_isSome_cons {q : FPath} (e : FPath × FNode) {fs : FS}
    (h : (lookupFS fs q).isSome = true) :
    (lookupFS (e :: fs) q).isSome = true := by
  by_cases he : e.1 = q
  · simp [lookupFS, he]
  · simpa [lookupFS, he] using h

theorem lookupFS_filter_keep {pred : FPath × FNode → Bool} {q : FPath}
    (h : ∀ n, pred (q, n) = true) :
    ∀ fs : FS, lookupFS (fs.filter pred) q = lookupFS fs q
  | [] => rfl
  | e :: es => by
    by_cases he : e.1 = q
    · have hp : pred e = true := by
        have he2 : e = (q, e.2) := by rw [← he]
        rw [he2]; exact h e.2
      simp [List.filter_cons, hp, lookupFS, he]
    · cases hp : pred e <;>
        simp [List.filter_cons, hp, lookupFS, he, lookupFS_filter_keep h es]

theorem lookupFS_filter_none {pred : FPath × FNode → Bool} {q : FPath}
    (h : ∀ n, pred (q, n) = false) :
    ∀ fs : FS, lookupFS (fs.filter pred) q = none
  | [] => rfl
  | e :: es => by
    by_cases he : e.1 = q
    · have hp : pred e = false := by
        have he2 : e = (q, e.2) := by rw [← he]
        rw [he2]; exact h e.2
      simp [List.filter_cons, hp, lookupFS_filter_none h es]
    · cases hp : pred e <;>
        simp [List.filter_cons, hp, lookupFS, he, lookupFS_filter_none h es]

theorem lookupFS_unlink_ne {fs : FS} {p q : FPath} (h : q ≠ p) :
    lookupFS (unlinkFS fs p) q = lookupFS fs q :=
  lookupFS_filter_keep (fun n => by simp [h]) fs

theorem lookupFS_unlink_self (fs : FS) (p : FPath) :
    lookupFS (unlinkFS fs p) p = none :=
  lookupFS_filter_none (fun n => by simp) fs

theorem lookupFS_rmtree_ne {fs : FS} {p q : FPath} (h : ¬ p <+: q) :
    lookupFS (rmtreeFS fs p) q = lookupFS fs q := by
  apply lookupFS_filter_keep
  intro n
  cases hb : List.isPrefixOf p q with
  | false => simp [hb]
  | true => exact absurd (List.isPrefixOf_iff_prefix.mp hb) h

theorem lookupFS_rmtree_self (fs : FS) (p : FPath) :
    lookupFS (rmtreeFS fs p) p = none := by
  apply lookupFS_filter_none
  intro n
  simp [List.isPrefixOf_iff_prefix]

theorem unlinkFS_ident_of_none :
    ∀ {fs : FS} {p : FPath}, lookupFS fs p = none → unlinkFS fs p = fs
  | [], _, _ => rfl
  | e :: es, p, h => by
    by_cases he : e.1 = p
    · simp [lookupFS, he] at h
    · simp only [lookupFS, if_neg he] at h
      unfold unlinkFS
      rw [List.filter_cons]
      have h2 : unlinkFS es p = es := unlinkFS_ident_of_none h
      unfold unlinkFS at h2
      simp [he, h2]

theorem unlinkFS_cons_self (fs : FS) (p : FPath) (n : FNode) :
    unlinkFS ((p, n) :: fs) p = unlinkFS fs p := by
  simp [unlinkFS, List.filter_cons]

theorem foldl_mkStep_lookup_notmem :
    ∀ (l : List FPath) (fs : FS) (q : FPath), q ∉ l →
      lookupFS (l.foldl mkStep fs) q = lookupFS fs q
  | [], _, _, _ => rfl
  | r :: rs, fs, q, h => by
    have h1 : q ≠ r := fun e => h (e ▸ List.mem_cons_self r rs)
    have h2 : q ∉ rs := fun e => h (List.mem_cons_of_mem _ e)
    rw [List.foldl_cons, foldl_mkStep_lookup_notmem rs _ q h2]
    unfold mkStep
    by_cases hs : (lookupFS fs r).isSome
    · simp [hs]
    · simp [hs, lookupFS, Ne.symm h1]

theorem foldl_mkStep_isSome :
    ∀ (l : List FPath) (fs : FS) (q : FPath), (lookupFS fs q).isSome = true →
      (lookupFS (l.foldl mkStep fs) q).isSome = true
  | [], _, _, h => h
  | r :: rs, fs, q, h => by
    rw [List.foldl_cons]
    apply foldl_mkStep_isSome rs
    unfold mkStep
    by_cases hs : (lookupFS fs r).isSome
    · simpa [hs] using h
    · simp only [hs, if_false]
      exact lookupFS_isSome_cons _ h

theorem foldl_mkStep_isSome_of_mem :
    ∀ (l : List FPath) (fs : FS) (q : FPath), q ∈ l →
      (lookupFS (l.foldl mkStep fs) q).isSome = true
  | [], _, q, h => absurd h (List.not_mem_nil q)
  | r :: rs, fs, q, h => by
    rw [List.foldl_cons]
    rcases List.mem_cons.mp h with rfl | h2
    · apply foldl_mkStep_isSome
      unfold mkStep
      by_cases hs : (lookupFS fs q).isSome
      · simp [hs]
      · simp [hs, lookupFS]
    · exact foldl_mkStep_isSome_of_mem rs _ q h2

theorem foldl_mkStep_ident :
    ∀ (l : List FPath) (fs : FS), (∀ q ∈ l, (lookupFS fs q).isSome = true) →
      l.foldl mkStep fs = fs
  | [], _, _ => rfl
  | r :: rs, fs, h => by
    rw [List.foldl_cons]
    have hr : mkStep fs r = fs := by
      unfold mkStep
      simp [h r (List.mem_cons_self r rs)]
    rw [hr]
    exact foldl_mkStep_ident rs fs (fun q hq => h q (List.mem_cons_of_mem _ hq))

theorem mem_ancestors {q p : FPath} :
    q ∈ ancestors p ↔ q ≠ [] ∧ q <+: p := by
  unfold ancestors
  constructor
  · intro h
    rcases List.mem_map.mp h with ⟨i, hi, rfl⟩
    have hi2 : i < p.length := List.mem_range.mp hi
    constructor
    · have hlen : (p.take (i + 1)).length = i + 1 := by
        rw [List.length_take]; omega
      intro e
      rw [e] at hlen
      simp at hlen
    · exact List.take_prefix _ _
  · rintro ⟨h1, h2⟩
    apply List.mem_map.mpr
    have hq0 : 0 < q.length := List.length_pos.mpr h1
    have hqp : q.length ≤ p.length := h2.length_le
    refine ⟨q.length - 1, List.mem_range.mpr (by omega), ?_⟩
    have hq1 : q.length - 1 + 1 = q.length := by omega
    rw [hq1]
    exact (List.prefix_iff_eq_take.mp h2).symm

theorem link_not_mem_ancestors_parent (link : FPath) :
    link ∉ ancestors (parentP link) := by
  intro h
  rcases mem_ancestors.mp h with ⟨h1, h2⟩
  have h3 := h2.length_le
  rw [parentP, List.length_dropLast] at h3
  have h4 : 0 < link.length := List.length_pos.mpr h1
  omega

theorem mkdirParents_ident {fs : FS} {p : FPath}
    (h : ∀ q, q ≠ [] → q <+: p → (lookupFS fs q).isSome = true) :
    mkdirParents fs p = fs :=
  foldl_mkStep_ident _ _ (fun q hq =>
    h q (mem_ancestors.mp hq).1 (mem_ancestors.mp hq).2)

theorem extraSegments_of_strip_empty {extra : String}
    (he : pyStrip extra = "") : extraSegments extra = [] := by
  have h0 : pyStripC extra.data = [] := by
    have h2 := congrArg String.data he
    simpa [pyStrip] using h2
  unfold extraSegments
  rw [h0]
  decide

theorem scanDirs_eq_some {E : CxxEnv} {libs : List String} :
    ∀ {dirs seen : List String} {d : String},
      scanDirs E libs dirs seen = some d →
      d ∈ dirs ∧ ∃ lib ∈ libs, E.pathExists (joinPath d lib) = true := by
  intro dirs
  induction dirs with
  | nil =>
    intro seen d h
    simp [scanDirs] at h
  | cons x ds ih =>
    intro seen d h
    simp only [scanDirs] at h
    by_cases hs : E.resolveP x ∈ seen
    · rw [if_pos hs] at h
      have h2 := ih h
      exact ⟨List.mem_cons_of_mem _ h2.1, h2.2⟩
    · rw [if_neg hs] at h
      by_cases ha : libs.any (fun lib => E.pathExists (joinPath x lib)) = true
      · rw [if_pos ha] at h
        injection h with h2
        subst h2
        rcases List.any_eq_true.mp ha with ⟨lib, hlib, hex⟩
        exact ⟨List.mem_cons_self _ _, lib, hlib, hex⟩
      · rw [if_neg ha] at h
        have h2 := ih h
        exact ⟨List.mem_cons_of_mem _ h2.1, h2.2⟩

theorem scanDirs_eq_none {E : CxxEnv} {libs : List String} :
    ∀ (dirs seen : List String),
      (∀ d ∈ dirs, ∀ lib ∈ libs, E.pathExists (joinPath d lib) = false) →
      scanDirs E libs dirs seen = none := by
  intro dirs
  induction dirs with
  | nil => intro seen _; rfl
  | cons x ds ih =>
    intro seen hall
    simp only [scanDirs]
    by_cases hs : E.resolveP x ∈ seen
    · rw [if_pos hs]
      exact ih _ (fun d hd => hall d (List.mem_cons_of_mem _ hd))
    · rw [if_neg hs]
      have ha : libs.any (fun lib => E.pathExists (joinPath x lib)) = false := by
        apply List.any_eq_false.mpr
        intro lib hlib
        simp [hall x (List.mem_cons_self _ _) lib hlib]
      simp only [ha, Bool.false_eq_true, if_false]
      exact ih _ (fun d hd => hall d (List.mem_cons_of_mem _ hd))

theorem mem_search_dirs_pathExists {E : CxxEnv} {d : String}
    (h : d ∈ candidate_dirs_from_search_dirs E) : E.pathExists d = true := by
  unfold candidate_dirs_from_search_dirs at h
  by_cases he : E.searchDirsOut = ""
  · simp [he] at h
  · rw [if_neg he] at h
    rcases List.mem_flatMap.mp h with ⟨line, _, hline⟩
    by_cases hp : "libraries:".data.isPrefixOf line = true
    · simp only [hp, if_true] at hline
      have h2 := (List.mem_filter.mp hline).2
      simp only [Bool.and_eq_true] at h2
      exact h2.2
    · simp [hp] at hline

theorem mem_root_dirs_pathExists {E : CxxEnv} {cxx d : String}
    (h : d ∈ candidate_dirs_from_compiler_root E cxx) :
    E.pathExists d = true := by
  simp only [candidate_dirs_from_compiler_root] at h
  split at h
  · exact (List.mem_filter.mp h).2
  · simp at h

theorem ensure_post_replace (fs0 : FS) (link target : FPath)
    (hnone : lookupFS fs0 link = none)
    (hanc : ∀ q, q ≠ [] → q <+: parentP link →
      (lookupFS ((link, FNode.symlink target) :: fs0) q).isSome = true) :
    ensure_symlink ((link, FNode.symlink target) :: fs0) link target =
      some ((link, FNode.symlink target) :: fs0) := by
  have hself : lookupFS ((link, FNode.symlink target) :: fs0) link =
      some (FNode.symlink target) := by simp [lookupFS]
  have hmk : mkdirParents ((link, FNode.symlink target) :: fs0) (parentP link) =
      (link, FNode.symlink target) :: fs0 := mkdirParents_ident hanc
  simp only [ensure_symlink, hmk, hself]
  cases ht : resolveSteps ((link, FNode.symlink target) :: fs0)
      (((link, FNode.symlink target) :: fs0).length + 1) target with
  | some c => simp [ht]
  | none =>
    simp only [ht]
    rw [unlinkFS_cons_self, unlinkFS_ident_of_none hnone]

/-! ## Claim theorems -/

/-- C1: `compute_toolchain_signature` returns exactly the first 12
hexadecimal characters of the SHA-256 digest of the pipe-joined canonical
field list {version, stripped CC, stripped CXX, stripped CFLAGS, stripped
CXXFLAGS, the three toggle strings, stripped extras}, in that order; its
result has length 12, consists of hex digits, and is deterministic in its
inputs. -/
theorem C1_signature_contract :
    ∀ (env : Env) (version tests acl xnnpack extra : String),
      compute_toolchain_signature env version tests acl xnnpack extra =
        String.mk ((bytesToHexChars (sha256 (utf8Encode
          (signatureInput env version tests acl xnnpack extra)))).take 12) ∧
      signatureParts env version tests acl xnnpack extra =
        [version, pyStrip ((env "CC").getD ""), pyStrip ((env "CXX").getD ""),
         pyStrip ((env "CFLAGS").getD ""), pyStrip ((env "CXXFLAGS").getD ""),
         tests, acl, xnnpack, pyStrip extra] ∧
      (compute_toolchain_signature env version tests acl xnnpack extra).length = 12 ∧
      (compute_toolchain_signature env version tests acl xnnpack extra).data.all
        (fun c => hexDigits.contains c) = true ∧
      compute_toolchain_signature env version tests acl xnnpack extra =
        compute_toolchain_signature env version tests acl xnnpack extra := by
  intro env version tests acl xnnpack extra
  refine ⟨rfl, rfl, ?_, ?_, rfl⟩
  · show (String.mk _).length = 12
    simp [String.length, List.length_take, sha256HexOfString_length]
  · rw [List.all_eq_true]
    intro c hc
    have hmem : c ∈ bytesToHexChars (sha256 (utf8Encode
        (signatureInput env version tests acl xnnpack extra))) :=
      List.take_subset _ _ hc
    exact List.elem_iff.mpr (mem_bytesToHexChars hmem)

/-- C2 counterexample: two environments that differ exactly in `LDFLAGS`
(resp. exactly in `ORT_CACHE_ROOT`) receive the same signature, so neither
variable is folded into `compute_toolchain_signature`. -/
theorem C2_counterexample :
    envLD1 "LDFLAGS" ≠ envLD2 "LDFLAGS" ∧
    compute_toolchain_signature envLD1 "1.23.2" "0" "0" "0" "" =
      compute_toolchain_signature envLD2 "1.23.2" "0" "0" "0" "" ∧
    envCR1 "ORT_CACHE_ROOT" ≠ envCR2 "ORT_CACHE_ROOT" ∧
    compute_toolchain_signature envCR1 "1.23.2" "0" "0" "0" "" =
      compute_toolchain_signature envCR2 "1.23.2" "0" "0" "0" "" := by
  refine ⟨by decide, ?_, by decide, ?_⟩
  · have h : signatureInput envLD1 "1.23.2" "0" "0" "0" "" =
        signatureInput envLD2 "1.23.2" "0" "0" "0" "" := by decide
    simp only [compute_toolchain_signature, h]
  · have h : signatureInput envCR1 "1.23.2" "0" "0" "0" "" =
        signatureInput envCR2 "1.23.2" "0" "0" "0" "" := by decide
    simp only [compute_toolchain_signature, h]

/-- C2 amended: the signature depends on the environment only through
`CC`, `CXX`, `CFLAGS` and `CXXFLAGS`; in particular changing only
`LDFLAGS` or `ORT_CACHE_ROOT` leaves it unchanged. -/
theorem C2_amended_env_dependence :
    ∀ (env1 env2 : Env) (version tests acl xnnpack extra : String),
      env1 "CC" = env2 "CC" → env1 "CXX" = env2 "CXX" →
      env1 "CFLAGS" = env2 "CFLAGS" → env1 "CXXFLAGS" = env2 "CXXFLAGS" →
      compute_toolchain_signature env1 version tests acl xnnpack extra =
        compute_toolchain_signature env2 version tests acl xnnpack extra := by
  intro env1 env2 version tests acl xnnpack extra h1 h2 h3 h4
  simp only [compute_toolchain_signature, signatureInput, signatureParts,
    envGetStrip, h1, h2, h3, h4]

/-- C2 witness: the amended theorem applied to the two concrete
`LDFLAGS`-differing environments. -/
theorem C2_amended_env_dependence_witness :
    compute_toolchain_signature envLD1 "1.23.2" "0" "0" "0" "" =
      compute_toolchain_signature envLD2 "1.23.2" "0" "0" "0" "" :=
  C2_amended_env_dependence envLD1 envLD2 "1.23.2" "0" "0" "0" ""
    (by decide) (by decide) (by decide) (by decide)

/-- C3 counterexample: two configurations that differ in exactly one of the
listed inputs (the `CFLAGS` override string, here by surrounding
whitespace) nevertheless receive the same signature, because the
environment values are stripped before hashing. -/
theorem C3_counterexample :
    envCF1 "CFLAGS" ≠ envCF2 "CFLAGS" ∧
    envCF1 "CC" = envCF2 "CC" ∧ envCF1 "CXX" = envCF2 "CXX" ∧
    envCF1 "CXXFLAGS" = envCF2 "CXXFLAGS" ∧
    compute_toolchain_signature envCF1 "1.23.2" "0" "0" "0" "" =
      compute_toolchain_signature envCF2 "1.23.2" "0" "0" "0" "" := by
  refine ⟨by decide, by decide, by decide, by decide, ?_⟩
  have h : signatureInput envCF1 "1.23.2" "0" "0" "0" "" =
      signatureInput envCF2 "1.23.2" "0" "0" "0" "" := by decide
  simp only [compute_toolchain_signature, h]

/-- C3 amended: sensitivity holds at the level of the canonical hashed
string and of stripped field values: if the two configurations' canonical
field lists differ in exactly one position, the strings fed to SHA-256
differ; and configurations whose field lists do not differ receive the
identical signature. -/
theorem C3_amended_sensitivity :
    ∀ (env1 env2 : Env) (v1 t1 a1 x1 e1 v2 t2 a2 x2 e2 : String)
      (pre post : List String) (s1 s2 : String),
      (signatureParts env1 v1 t1 a1 x1 e1 = pre ++ s1 :: post →
       signatureParts env2 v2 t2 a2 x2 e2 = pre ++ s2 :: post →
       s1 ≠ s2 →
       signatureInput env1 v1 t1 a1 x1 e1 ≠ signatureInput env2 v2 t2 a2 x2 e2) ∧
      (signatureParts env1 v1 t1 a1 x1 e1 = signatureParts env2 v2 t2 a2 x2 e2 →
       compute_toolchain_signature env1 v1 t1 a1 x1 e1 =
         compute_toolchain_signature env2 v2 t2 a2 x2 e2) := by
  intro env1 env2 v1 t1 a1 x1 e1 v2 t2 a2 x2 e2 pre post s1 s2
  constructor
  · intro h1 h2 hne heq
    have hd : s1.data ≠ s2.data := by
      intro hdd
      apply hne
      cases s1 with
      | mk d1 =>
        cases s2 with
        | mk d2 => exact congrArg String.mk hdd
    have hJ : joinSep ['|'] ((pre ++ s1 :: post).map String.data) =
        joinSep ['|'] ((pre ++ s2 :: post).map String.data) := by
      have h := heq
      unfold signatureInput at h
      rw [h1, h2] at h
      injection h
    rw [List.map_append, List.map_cons, List.map_append, List.map_cons] at hJ
    exact joinSep_ne_of_single_diff ['|'] (pre.map String.data)
      (post.map String.data) hd hJ
  · intro h
    simp only [compute_toolchain_signature, signatureInput, h]

/-- C3 witness: the amended sensitivity theorem applied to two concrete
configurations differing exactly in the stripped `CFLAGS` value. -/
theorem C3_amended_sensitivity_witness :
    signatureInput envS1 "1.23.2" "0" "0" "0" "" ≠
      signatureInput envS2 "1.23.2" "0" "0" "0" "" :=
  (C3_amended_sensitivity envS1 envS2 "1.23.2" "0" "0" "0" ""
      "1.23.2" "0" "0" "0" "" ["1.23.2", "", ""] ["", "0", "0", "0", ""]
      "-O2" "-O3").1 (by decide) (by decide) (by decide)

/-- C4: after a successful `ensure_symlink` call, the visible path is a
symlink whose resolution equals the target's; a second call with the same
target is a no-op; all nonempty prefixes of the visible path's parent
exist; and a pre-existing file, directory, or differently-resolving
symlink at the visible path has been replaced by a symlink to the target. -/
theorem C4_ensure_symlink :
    ∀ (fs fs1 : FS) (link target : FPath),
      ensure_symlink fs link target = some fs1 →
      (∃ u, lookupFS fs1 link = some (FNode.symlink u) ∧
        pyResolve fs1 u = pyResolve fs1 target) ∧
      ensure_symlink fs1 link target = some fs1 ∧
      (∀ q, q ≠ [] → q <+: parentP link → (lookupFS fs1 q).isSome = true) ∧
      (lookupFS fs link = some FNode.file ∨ lookupFS fs link = some FNode.dir →
        lookupFS fs1 link = some (FNode.symlink target)) ∧
      (∀ u c t2, lookupFS fs link = some (FNode.symlink u) →
        pyResolve (mkdirParents fs (parentP link)) u = some c →
        pyResolve (mkdirParents fs (parentP link)) target = some t2 →
        c ≠ t2 → lookupFS fs1 link = some (FNode.symlink target)) := by
  intro fs fs1 link target h
  have hppre : ∀ q, q ≠ [] → q <+: parentP link →
      (lookupFS (mkdirParents fs (parentP link)) q).isSome = true := by
    intro q h1 h2
    exact foldl_mkStep_isSome_of_mem _ _ _ (mem_ancestors.mpr ⟨h1, h2⟩)
  have hq_ne_link : ∀ q, q ≠ [] → q <+: parentP link → q ≠ link := by
    intro q h1 h2 e
    have l1 := h2.length_le
    rw [parentP, List.length_dropLast] at l1
    have l2 : 0 < q.length := List.length_pos.mpr h1
    rw [e] at l1 l2
    omega
  have hq_not_under : ∀ q, q ≠ [] → q <+: parentP link → ¬ link <+: q := by
    intro q h1 h2 hp
    have l1 := h2.length_le
    rw [parentP, List.length_dropLast] at l1
    have l2 := hp.length_le
    have l3 : 0 < q.length := List.length_pos.mpr h1
    omega
  have hlinkpre : lookupFS (mkdirParents fs (parentP link)) link =
      lookupFS fs link :=
    foldl_mkStep_lookup_notmem _ _ _ (link_not_mem_ancestors_parent link)
  simp only [ensure_symlink] at h
  cases hl : lookupFS (mkdirParents fs (parentP link)) link with
  | none =>
    simp only [hl] at h
    injection h with h2
    subst h2
    have hancB : ∀ q, q ≠ [] → q <+: parentP link →
        (lookupFS ((link, FNode.symlink target) ::
          mkdirParents fs (parentP link)) q).isSome = true := by
      intro q h1 h2
      exact lookupFS_isSome_cons _ (hppre q h1 h2)
    refine ⟨⟨target, by simp [lookupFS], rfl⟩,
      ensure_post_replace _ _ _ hl hancB, hancB,
      fun _ => by simp [lookupFS], fun u cx tx _ _ _ _ => by simp [lookupFS]⟩
  | some node =>
    cases node with
    | file =>
      simp only [hl] at h
      injection h with h2
      subst h2
      have hancB : ∀ q, q ≠ [] → q <+: parentP link →
          (lookupFS ((link, FNode.symlink target) ::
            unlinkFS (mkdirParents fs (parentP link)) link) q).isSome = true := by
        intro q h1 h2
        apply lookupFS_isSome_cons
        rw [lookupFS_unlink_ne (hq_ne_link q h1 h2)]
        exact hppre q h1 h2
      refine ⟨⟨target, by simp [lookupFS], rfl⟩,
        ensure_post_replace _ _ _ (lookupFS_unlink_self _ _) hancB, hancB,
        fun _ => by simp [lookupFS], fun u cx tx _ _ _ _ => by simp [lookupFS]⟩
    | dir =>
      simp only [hl] at h
      injection h with h2
      subst h2
      have hancB : ∀ q, q ≠ [] → q <+: parentP link →
          (lookupFS ((link, FNode.symlink target) ::
            rmtreeFS (mkdirParents fs (parentP link)) link) q).isSome = true := by
        intro q h1 h2
        apply lookupFS_isSome_cons
        rw [lookupFS_rmtree_ne (hq_not_under q h1 h2)]
        exact hppre q h1 h2
      refine ⟨⟨target, by simp [lookupFS], rfl⟩,
        ensure_post_replace _ _ _ (lookupFS_rmtree_self _ _) hancB, hancB,
        fun _ => by simp [lookupFS], fun u cx tx _ _ _ _ => by simp [lookupFS]⟩
    | symlink curT =>
      simp only [hl] at h
      cases hc : resolveSteps (mkdirParents fs (parentP link))
          ((mkdirParents fs (parentP link)).length + 1) curT with
      | none =>
        simp only [hc] at h
        injection h with h2
        subst h2
        have hancB : ∀ q, q ≠ [] → q <+: parentP link →
            (lookupFS ((link, FNode.symlink target) ::
              unlinkFS (mkdirParents fs (parentP link)) link) q).isSome = true := by
          intro q h1 h2
          apply lookupFS_isSome_cons
          rw [lookupFS_unlink_ne (hq_ne_link q h1 h2)]
          exact hppre q h1 h2
        refine ⟨⟨target, by simp [lookupFS], rfl⟩,
          ensure_post_replace _ _ _ (lookupFS_unlink_self _ _) hancB, hancB,
          fun _ => by simp [lookupFS], fun u cx tx _ _ _ _ => by simp [lookupFS]⟩
      | some c =>
        simp only [hc] at h
        cases ht : resolveSteps (mkdirParents fs (parentP link))
            ((mkdirParents fs (parentP link)).length + 1) target with
        | none =>
          simp only [ht] at h
          exact Option.noConfusion h
        | some t2 =>
          simp only [ht] at h
          by_cases hct : c = t2
          · rw [if_pos hct] at h
            injection h with h2
            subst h2
            refine ⟨⟨curT, hl, ?_⟩, ?_, hppre, ?_, ?_⟩
            · unfold pyResolve
              rw [hc, ht, hct]
            · simp only [ensure_symlink, mkdirParents_ident hppre, hl, hc, ht,
                if_pos hct]
            · intro hfd
              rw [hlinkpre] at hl
              rcases hfd with hf | hf <;> rw [hf] at hl <;> simp at hl
            · intro u cx tx hu hru hrt hne
              rw [hlinkpre, hu] at hl
              injection hl with hl2
              injection hl2 with hl3
              unfold pyResolve at hru hrt
              rw [hl3] at hru
              rw [hc] at hru
              rw [ht] at hrt
              injection hru with hru2
              injection hrt with hrt2
              exact absurd (by rw [← hru2, ← hrt2]; exact hct) hne
          · rw [if_neg hct] at h
            injection h with h2
            subst h2
            have hancB : ∀ q, q ≠ [] → q <+: parentP link →
                (lookupFS ((link, FNode.symlink target) ::
                  unlinkFS (mkdirParents fs (parentP link)) link) q).isSome =
                  true := by
              intro q h1 h2
              apply lookupFS_isSome_cons
              rw [lookupFS_unlink_ne (hq_ne_link q h1 h2)]
              exact hppre q h1 h2
            refine ⟨⟨target, by simp [lookupFS], rfl⟩,
              ensure_post_replace _ _ _ (lookupFS_unlink_self _ _) hancB, hancB,
              fun _ => by simp [lookupFS], fun u cx tx _ _ _ _ => by simp [lookupFS]⟩

/-- C4 witness: the theorem applied to a concrete filesystem; the second
call on the produced state is a no-op. -/
theorem C4_ensure_symlink_witness :
    ensure_symlink demoFS1 ["proj", "build"] ["data"] = some demoFS1 :=
  (C4_ensure_symlink demoFS demoFS1 ["proj", "build"] ["data"]
    (by decide)).2.1

/-- C9: the toolchain prober degrades gracefully: empty compiler means
"not found"; a step-1 hit (compiler-resolved absolute existing path) wins
with its parent returned; otherwise any returned directory comes from the
search-dirs or compiler-root candidates, exists, and contains a candidate
name; and when no step succeeds the result is `none`, not an error. -/
theorem C9_prober_degradation :
    ∀ (E : CxxEnv) (cxx : String) (libnames : List String),
      (cxx = "" → detect_runtime_lib_dir E cxx libnames = none) ∧
      (∀ d, cxx ≠ "" → printFileHit E libnames = some d →
        detect_runtime_lib_dir E cxx libnames = some d) ∧
      (∀ d, printFileHit E libnames = none →
        detect_runtime_lib_dir E cxx libnames = some d →
        (d ∈ candidate_dirs_from_search_dirs E ++
            candidate_dirs_from_compiler_root E cxx ∧
         E.pathExists d = true ∧
         ∃ lib ∈ libnames, E.pathExists (joinPath d lib) = true)) ∧
      (printFileHit E libnames = none →
        (∀ d ∈ candidate_dirs_from_search_dirs E ++
            candidate_dirs_from_compiler_root E cxx,
          ∀ lib ∈ libnames, E.pathExists (joinPath d lib) = false) →
        detect_runtime_lib_dir E cxx libnames = none) := by
  intro E cxx libnames
  refine ⟨?_, ?_, ?_, ?_⟩
  · intro h
    simp [detect_runtime_lib_dir, h]
  · intro d hne hp
    simp [detect_runtime_lib_dir, hne, hp]
  · intro d hp hd
    by_cases hc : cxx = ""
    · simp [detect_runtime_lib_dir, hc] at hd
    · simp only [detect_runtime_lib_dir, if_neg hc, hp] at hd
      have h2 := scanDirs_eq_some hd
      rcases List.mem_append.mp h2.1 with hmem | hmem
      · exact ⟨h2.1, mem_search_dirs_pathExists hmem, h2.2⟩
      · exact ⟨h2.1, mem_root_dirs_pathExists hmem, h2.2⟩
  · intro hp hall
    by_cases hc : cxx = ""
    · simp [detect_runtime_lib_dir, hc]
    · simp only [detect_runtime_lib_dir, if_neg hc, hp]
      exact scanDirs_eq_none _ _ hall

/-- C9 witness: on an oracle where every step fails, the prober returns
`none`. -/
theorem C9_prober_degradation_witness :
    detect_runtime_lib_dir demoCxxEnv "/usr/bin/g++" ["libstdc++.dylib"] =
      none :=
  (C9_prober_degradation demoCxxEnv "/usr/bin/g++" ["libstdc++.dylib"]).2.2.2
    (by decide) (by decide)

/-- C7: a malformed extra-definitions entry (first stripped non-blank
segment without `=`) makes the run fail with the error naming that entry,
spawning none of the three external invocations; when all segments are
well-formed, parsing returns exactly the stripped segments in order. -/
theorem C7_eager_validation :
    ∀ (darwin libDirExists : Bool) (listing : DirListing)
      (libDirPath extra : String) (skip : Bool) (p : String),
      ((extraSegments extra).find? (fun q => !(strContains q '=')) = some p →
        parse_extra_defines extra = .error (badEntryMsg p) ∧
        mainTrace darwin true libDirExists listing libDirPath extra skip =
          ([], some (badEntryMsg p))) ∧
      ((extraSegments extra).find? (fun q => !(strContains q '=')) = none →
        parse_extra_defines extra = .ok (extraSegments extra)) := by
  intro darwin libDirExists listing libDirPath extra skip p
  constructor
  · intro hf
    have hne : pyStrip extra ≠ "" := by
      intro he
      rw [extraSegments_of_strip_empty he] at hf
      simp at hf
    have hparse : parse_extra_defines extra = .error (badEntryMsg p) := by
      simp only [parse_extra_defines]
      rw [if_neg hne, hf]
    refine ⟨hparse, ?_⟩
    simp [mainTrace, hparse]
  · intro hf
    by_cases he : pyStrip extra = ""
    · rw [extraSegments_of_strip_empty he]
      simp [parse_extra_defines, he]
    · simp only [parse_extra_defines]
      rw [if_neg he, hf]

/-- C7 witness: the concrete malformed entry `FOO` is rejected with the
naming error and an empty spawn trace. -/
theorem C7_eager_validation_witness :
    parse_extra_defines "FOO" = .error (badEntryMsg "FOO") ∧
    mainTrace false true true [] "lib" "FOO" false =
      ([], some (badEntryMsg "FOO")) :=
  (C7_eager_validation false true [] "lib" "FOO" false "FOO").1 (by decide)

/-- C8 counterexample: the directory holds a file matching `is_built`'s
platform pattern (`libonnxruntime.so*`), skip-if-built is set, and indeed
no external invocation occurs — but the run errors in the normalizer and
the stamp is never touched, contradicting the claim. -/
theorem C8_counterexample :
    is_built false true c8Listing = true ∧
    mainTrace false true true c8Listing "lib" "" true =
      ([], some (noCandidatesMsg false "lib" c8Listing)) ∧
    Ev.stampTouch ∉ (mainTrace false true true c8Listing "lib" "" true).1 := by
  refine ⟨rfl, rfl, by decide⟩

/-- C8 amended: the skip fast path spawns nothing and still stamps,
provided the matching file also satisfies the output normalizer: it is the
canonical name itself or matches the versioned pattern
`libonnxruntime.so.*` without being a static archive. -/
theorem C8_amended_skip_path :
    ∀ (listing : DirListing) (dir extra : String) (n : String),
      (n, EntKind.file) ∈ listing →
      (("libonnxruntime.so.".data.isPrefixOf n.data = true ∧
        ".a".data.isSuffixOf n.data = false) ∨ n = "libonnxruntime.so") →
      (extraSegments extra).find? (fun q => !(strContains q '=')) = none →
      mainTrace false true true listing dir extra true =
        ([Ev.stampTouch], none) := by
  intro listing dir extra n hmem hn hf
  have hparse : ∃ l, parse_extra_defines extra = .ok l := by
    by_cases he : pyStrip extra = ""
    · exact ⟨[], by simp [parse_extra_defines, he]⟩
    · refine ⟨extraSegments extra, ?_⟩
      simp only [parse_extra_defines]
      rw [if_neg he, hf]
  obtain ⟨l, hok⟩ := hparse
  have hbuilt : is_built false true listing = true := by
    unfold is_built builtPattern
    simp only [Bool.true_and, if_false]
    apply List.any_eq_true.mpr
    refine ⟨(n, EntKind.file), hmem, ?_⟩
    rcases hn with ⟨hpre, _⟩ | rfl
    · apply List.isPrefixOf_iff_prefix.mpr
      exact List.IsPrefix.trans
        (by decide :
          "libonnxruntime.so".data <+: "libonnxruntime.so.".data)
        (List.isPrefixOf_iff_prefix.mp hpre)
    · decide
  have hsoname : ∃ v, ensure_soname_symlink false dir listing = .ok v := by
    cases hany : listing.any (fun e => decide (e.1 = wantName false)) with
    | true => exact ⟨none, by simp [ensure_soname_symlink, hany]⟩
    | false =>
      have hnw : ∀ e ∈ listing, ¬ (e.1 = wantName false) := by
        intro e he
        have h3 := List.any_eq_false.mp hany e he
        simpa using h3
      have hnn : ¬ (n = wantName false) := hnw (n, EntKind.file) hmem
      have hcand : n ∈ sonameCandidates false listing := by
        unfold sonameCandidates
        apply List.mem_map.mpr
        refine ⟨(n, EntKind.file), List.mem_filter.mpr ⟨hmem, ?_⟩, rfl⟩
        rcases hn with ⟨hpre, ha⟩ | rfl
        · simp [matchesLibPattern, hpre, ha, isStaticArchive, hnn]
        · exact absurd rfl hnn
      have hne2 : sonameCandidates false listing ≠ [] :=
        List.ne_nil_of_mem hcand
      refine ⟨(List.insertionSort candR (sonameCandidates false listing)).getLast?, ?_⟩
      simp only [ensure_soname_symlink, hany, Bool.false_eq_true, if_false,
        if_neg hne2]
  obtain ⟨v, hsv⟩ := hsoname
  simp [mainTrace, hok, hbuilt, hsv]

/-- C8 amended witness: with a well-formed versioned library file present,
the skip path produces just the stamp. -/
theorem C8_amended_skip_path_witness :
    mainTrace false true true c8GoodListing "lib" "" true =
      ([Ev.stampTouch], none) :=
  C8_amended_skip_path c8GoodListing "lib" "" "libonnxruntime.so.1.2.3"
    (by decide) (Or.inl ⟨by decide, by decide⟩) (by decide)

/-- C5: when the canonical name is absent and candidates exist,
`ensure_soname_symlink` selects the candidate greatest under the
numeric-tuple-then-filename order `candLe`; on the spec's example listing
it picks `libonnxruntime.so.1.23.2`, whose numeric key `[1,23,2]` beats
`[1,2,0]` and `[1,9,0]`. -/
theorem C5_version_selection :
    (∀ (darwin : Bool) (dir : String) (listing : DirListing),
       listing.any (fun e => decide (e.1 = wantName darwin)) = false →
       sonameCandidates darwin listing ≠ [] →
       ∃ chosen, ensure_soname_symlink darwin dir listing = .ok (some chosen) ∧
         chosen ∈ sonameCandidates darwin listing ∧
         ∀ c ∈ sonameCandidates darwin listing, candLe c chosen = true) ∧
    ensure_soname_symlink false "lib" demoListing =
      .ok (some "libonnxruntime.so.1.23.2") ∧
    natural_version_key "libonnxruntime.so.1.2.0" = [1, 2, 0] ∧
    natural_version_key "libonnxruntime.so.1.23.2" = [1, 23, 2] ∧
    natural_version_key "libonnxruntime.so.1.9.0" = [1, 9, 0] := by
  refine ⟨?_, rfl, rfl, rfl, rfl⟩
  intro darwin dir listing hwant hcands
  simp only [ensure_soname_symlink, hwant, Bool.false_eq_true, if_false,
    if_neg hcands]
  cases e : (List.insertionSort candR (sonameCandidates darwin listing)).getLast?
    with
  | none =>
    exfalso
    rw [List.getLast?_eq_none_iff] at e
    have hp := List.perm_insertionSort candR (sonameCandidates darwin listing)
    rw [e] at hp
    exact hcands hp.symm.eq_nil
  | some m =>
    refine ⟨m, rfl, ?_, ?_⟩
    · have hm : m ∈ List.insertionSort candR (sonameCandidates darwin listing) :=
        List.mem_of_mem_getLast? (by rw [e]; rfl)
      exact (List.perm_insertionSort candR _).subset hm
    · intro c hc
      haveI : IsTotal String candR := ⟨candLe_total⟩
      haveI : IsTrans String candR := ⟨fun a b c hab hbc => candLe_trans hab hbc⟩
      have hsort := List.sorted_insertionSort candR
        (sonameCandidates darwin listing)
      have hc2 : c ∈ List.insertionSort candR (sonameCandidates darwin listing) :=
        (List.perm_insertionSort candR _).symm.subset hc
      rcases sorted_getLast?_max hsort hc2 e with rfl | hr
      · exact candLe_refl c
      · exact hr

/-- C5 witness: from the general selection theorem applied to the spec's
example listing, the chosen name dominates `libonnxruntime.so.1.9.0` in the
numeric-tuple order. -/
theorem C5_version_selection_witness :
    candLe "libonnxruntime.so.1.9.0" "libonnxruntime.so.1.23.2" = true := by
  obtain ⟨chosen, h1, _, h3⟩ :=
    C5_version_selection.1 false "lib" demoListing (by decide) (by decide)
  have h4 : chosen = "libonnxruntime.so.1.23.2" := by
    have h5 := C5_version_selection.2.1
    rw [h1] at h5
    simpa using h5
  rw [← h4]
  exact h3 _ (by decide)

/-- C6: `ensure_soname_symlink` is a no-op when the canonical name exists
(as any entry kind), and when the canonical name is absent and no candidate
matches it fails with the diagnostic message built from the sorted
directory listing, which mentions exactly the directory's entry names. -/
theorem C6_noop_and_error :
    ∀ (darwin : Bool) (dir : String) (listing : DirListing),
      (listing.any (fun e => decide (e.1 = wantName darwin)) = true →
        ensure_soname_symlink darwin dir listing = .ok none) ∧
      (listing.any (fun e => decide (e.1 = wantName darwin)) = false →
       sonameCandidates darwin listing = [] →
       ensure_soname_symlink darwin dir listing =
         .error (noCandidatesMsg darwin dir listing) ∧
       ∀ n : String, n ∈ dirNamesSorted listing ↔
         n ∈ listing.map (fun e => e.1)) := by
  intro darwin dir listing
  constructor
  · intro h
    simp [ensure_soname_symlink, h]
  · intro h1 h2
    refine ⟨by simp [ensure_soname_symlink, h1, h2], ?_⟩
    intro n
    exact (List.perm_insertionSort strR _).mem_iff

/-- C6 witness: the no-op and the error case at concrete directories. -/
theorem C6_noop_and_error_witness :
    ensure_soname_symlink false "lib" [("libonnxruntime.so", EntKind.file)] =
      .ok none ∧
    ensure_soname_symlink false "libdir" [("readme.txt", EntKind.file)] =
      .error (noCandidatesMsg false "libdir" [("readme.txt", EntKind.file)]) := by
  constructor
  · exact (C6_noop_and_error false "lib" _).1 (by decide)
  · exact ((C6_noop_and_error false "libdir" _).2 (by decide) (by decide)).1

/-- C10: `parse_extra_defines` drops blank segments silently: any input of
semicolons and whitespace only (including the empty string) parses to the
empty list, and `"A=1; ;B=2;"` parses to exactly `["A=1", "B=2"]`. -/
theorem C10_blank_segments :
    (∀ s : String, (∀ c ∈ s.data, c = ';' ∨ pyIsSpace c = true) →
       parse_extra_defines s = .ok []) ∧
    parse_extra_defines "" = .ok [] ∧
    parse_extra_defines "A=1; ;B=2;" = .ok ["A=1", "B=2"] := by
  refine ⟨?_, rfl, rfl⟩
  intro s hs
  have hparts : extraSegments s = [] := by
    unfold extraSegments
    rw [List.filter_eq_nil_iff]
    intro p hp
    rcases List.mem_map.mp hp with ⟨seg, hseg, rfl⟩
    have hall : ∀ c ∈ seg, pyIsSpace c = true := by
      intro c hc
      have h2 := splitOnCh_chars hseg hc
      have h3 : c ∈ s.data := mem_pyStripC h2.1
      rcases hs c h3 with h4 | h4
      · exact absurd h4 h2.2
      · exact h4
    simp [pyStripC_eq_nil_of_all_space hall]
  unfold parse_extra_defines
  by_cases he : pyStrip s = ""
  · simp [he]
  · simp [he, hparts]

/-- C10 witness: an input of semicolons and whitespace only parses to the
empty list. -/
theorem C10_blank_segments_witness :
    parse_extra_defines ";; \t ;" = .ok [] :=
  C10_blank_segments.1 ";; \t ;" (by decide)

end OrtBuild
